import Mathlib

/-!
Verification of the yt-clipper acquisition / trim pipeline.

This file shallowly embeds the Go source of the repository
(internal/youtube/downloader.go, the ffmpeg processor, and app.go) in Lean:

* Go strings are modelled as Lean `String` (inspected through `String.toList`);
  `strings.Contains`, `strings.HasPrefix` and friends are re-implemented on
  character lists so that everything reduces in the kernel.
* Go `int`/`int64` are modelled as `Int`; `float64` progress arithmetic is
  modelled by exact rationals `ℚ` (the claims under study are about ordering,
  clamping and coalescing, which are exact in either structure).
* File-system effects are modelled as explicit transformations of the set of
  paths present on disk (`Finset String`); each fallible external step
  (network read, file creation, subprocess run) is driven by an explicit
  scenario record saying which step fails.
* Progress callbacks are modelled by the list of values a run delivers to the
  callback, in delivery order.
-/
/-- Character-list prefix test, mirroring Go `strings.HasPrefix` on the
decoded rune sequence. -/
def preMatch : List Char → List Char → Bool
  | [], _ => true
  | _ :: _, [] => false
  | a :: as, b :: bs => a = b && preMatch as bs

/-- Character-list substring test: does `needle` occur contiguously inside the
second argument?  Mirrors Go `strings.Contains`. -/
def infMatch (needle : List Char) : List Char → Bool
  | [] => preMatch needle []
  | c :: rest => preMatch needle (c :: rest) || infMatch needle rest

/-- Go `strings.Contains(s, sub)`. -/
def strContains (s sub : String) : Bool := infMatch sub.toList s.toList

/- String constants appearing in downloader.go's mime-type tests. -/
def sVideo : String := "video"

def sVideoMp4 : String := "video/mp4"

def sVideoWebm : String := "video/webm"

def sAudio : String := "audio"

def sAudioMp4 : String := "audio/mp4"

def sAudioWebm : String := "audio/webm"

def sAvc1 : String := "avc1"

def sMp4a : String := "mp4a"

def sVp9 : String := "vp9"

def sVp09 : String := "vp09"

def sAv01 : String := "av01"

def sWebm : String := "webm"

def sOpus : String := "opus"

/-- Go struct `youtube.Format`, restricted to the fields downloader.go reads:
`MimeType`, `AudioChannels`, `Width`, `Height`, `Bitrate`. -/
structure Format where
  mimeType : String
  audioChannels : Int
  width : Int
  height : Int
  bitrate : Int
deriving DecidableEq

/-- Membership test for the `withAudio` list built by `selectFormat`:
`f.AudioChannels > 0 && strings.Contains(f.MimeType, "video")`. -/
def fmtIsWithAudio (f : Format) : Bool :=
  (0 < f.audioChannels : Bool) && strContains f.mimeType sVideo

/-- Membership test for the `mp4Any` list built by `selectFormat` (nested
inside the `withAudio` branch, additionally requiring `"video/mp4"`). -/
def fmtIsMp4Any (f : Format) : Bool :=
  fmtIsWithAudio f && strContains f.mimeType sVideoMp4

/-- Membership test for the `mp4H264` list built by `selectFormat`
(additionally requiring the `"avc1"` and `"mp4a"` codec tags). -/
def fmtIsMp4H264 (f : Format) : Bool :=
  fmtIsMp4Any f && strContains f.mimeType sAvc1 && strContains f.mimeType sMp4a

/-- Loop body of `pickBestWithAudio` in downloader.go: given the current best
and the next candidate `f`, return the new best.  The first two branches pin
height 720, the next two prefer greater height then, on equal height, greater
bitrate; otherwise the earlier element is kept. -/
def pickStepWithAudio (best f : Format) : Format :=
  if f.height = 720 ∧ best.height ≠ 720 then f
  else if best.height = 720 ∧ f.height ≠ 720 then best
  else if best.height < f.height then f
  else if f.height = best.height ∧ best.bitrate < f.bitrate then f
  else best

/-- Go `pickBestWithAudio`: `nil` on an empty list, otherwise the left fold of
the loop body over the tail starting from the first element. -/
def pickBestWithAudio : List Format → Option Format
  | [] => none
  | f :: rest => some (rest.foldl pickStepWithAudio f)

/-- Go `selectFormat`: try the MP4/H.264+AAC progressive tier, then any-codec
MP4 progressive, then any-container progressive, and as a last resort the
first format whose mime type mentions video at all. -/
def selectFormat (formats : List Format) : Option Format :=
  match pickBestWithAudio (formats.filter fmtIsMp4H264) with
  | some best => some best
  | none =>
    match pickBestWithAudio (formats.filter fmtIsMp4Any) with
    | some best => some best
    | none =>
      match pickBestWithAudio (formats.filter fmtIsWithAudio) with
      | some best => some best
      | none => formats.find? (fun f => strContains f.mimeType sVideo)

/-- Membership test for the `videoOnly` list built by `selectMuxFormats`:
no audio channels, a video mime type, and an MP4 or WebM container. -/
def fmtIsVideoOnlyCand (f : Format) : Bool :=
  (f.audioChannels = 0 : Bool) && strContains f.mimeType sVideo &&
    (strContains f.mimeType sVideoMp4 || strContains f.mimeType sVideoWebm)

/-- Membership test for the `audioOnly` list built by `selectMuxFormats`:
positive audio channels, an audio mime type, and an MP4 or WebM container. -/
def fmtIsAudioOnlyCand (f : Format) : Bool :=
  (0 < f.audioChannels : Bool) && strContains f.mimeType sAudio &&
    (strContains f.mimeType sAudioMp4 || strContains f.mimeType sAudioWebm)

/-- Loop body of `pickBestVideoOnly`: strictly greater height wins, ties on
height are broken by strictly greater bitrate. -/
def pickStepVideoOnly (best f : Format) : Format :=
  if best.height < f.height then f
  else if f.height = best.height ∧ best.bitrate < f.bitrate then f
  else best

/-- Go `pickBestVideoOnly`. -/
def pickBestVideoOnly : List Format → Option Format
  | [] => none
  | f :: rest => some (rest.foldl pickStepVideoOnly f)

/-- Loop body of `pickBestAudioOnly`: strictly greater bitrate wins. -/
def pickStepAudioOnly (best f : Format) : Format :=
  if best.bitrate < f.bitrate then f else best

/-- Go `pickBestAudioOnly`. -/
def pickBestAudioOnly : List Format → Option Format
  | [] => none
  | f :: rest => some (rest.foldl pickStepAudioOnly f)

/-- Go `selectMuxFormats`: filter the video-only and audio-only candidate
lists and pick the best of each. -/
def selectMuxFormats (formats : List Format) : Option Format × Option Format :=
  (pickBestVideoOnly (formats.filter fmtIsVideoOnlyCand),
   pickBestAudioOnly (formats.filter fmtIsAudioOnlyCand))

/-- Preference order implemented by `pickBestWithAudio`: `f` is no better than
`g` when `g` wins on the 720-pin, else on height, else is at least as good on
bitrate.  `pickBestWithAudio` returns a maximum of this order. -/
def prefLE720 (f g : Format) : Prop :=
  (if f.height = 720 then (1 : Int) else 0) < (if g.height = 720 then 1 else 0) ∨
    ((if f.height = 720 then (1 : Int) else 0) = (if g.height = 720 then 1 else 0) ∧
      (f.height < g.height ∨ (f.height = g.height ∧ f.bitrate ≤ g.bitrate)))

/-- Preference order implemented by `pickBestVideoOnly`: strictly greater
height, then greater bitrate. -/
def prefLEHeight (f g : Format) : Prop :=
  f.height < g.height ∨ (f.height = g.height ∧ f.bitrate ≤ g.bitrate)

/-- Preference order implemented by `pickBestAudioOnly`: greater bitrate. -/
def prefLEBitrate (f g : Format) : Prop :=
  f.bitrate ≤ g.bitrate

/-- Mime type of a progressive MP4/H.264/AAC variant, used in concrete
selection examples. -/
def exMime720 : String := "video/mp4; codecs=\"avc1.64001F, mp4a.40.2\""

def exFmt480 : Format := { mimeType := exMime720, audioChannels := 2, width := 854, height := 480, bitrate := 600000 }

def exFmt720 : Format := { mimeType := exMime720, audioChannels := 2, width := 1280, height := 720, bitrate := 1200000 }

def exFmt1080 : Format := { mimeType := exMime720, audioChannels := 2, width := 1920, height := 1080, bitrate := 2500000 }

/-- Mime type of a video-only MP4/H.264 variant for concrete examples. -/
def exMimeVideoOnly : String := "video/mp4; codecs=\"avc1.640028\""

/-- Mime type of an audio-only MP4/AAC variant for concrete examples. -/
def exMimeAudioOnly : String := "audio/mp4; codecs=\"mp4a.40.2\""

def exV480 : Format := { mimeType := exMimeVideoOnly, audioChannels := 0, width := 854, height := 480, bitrate := 500000 }

def exV720 : Format := { mimeType := exMimeVideoOnly, audioChannels := 0, width := 1280, height := 720, bitrate := 1000000 }

def exV1080 : Format := { mimeType := exMimeVideoOnly, audioChannels := 0, width := 1920, height := 1080, bitrate := 2000000 }

def exA128 : Format := { mimeType := exMimeAudioOnly, audioChannels := 2, width := 0, height := 0, bitrate := 128000 }

/-!
Progress reporting.  `float64` progress values are modelled by `ℚ`.  A run's
interaction with its progress callback is modelled by the list of values
delivered, in order.
-/
/-- Clamping performed by Go `weightedProgress` on the raw sub-progress
(`if p < 0 { p = 0 }; if p > 1 { p = 1 }`). -/
def clamp01 (p : ℚ) : ℚ := if p < 0 then 0 else if 1 < p then 1 else p

/-- Go `weightedProgress(parent, base, weight)` applied to a raw value `p`:
the parent callback receives `base + clamp(p)*weight`. -/
def weightedProgress (base weight p : ℚ) : ℚ := base + clamp01 p * weight

/-- Emission loop of `progressReader.Read`: given the fraction sequence seen
by successive reads (cumulative bytes over total), keep a value exactly when
it grew by at least 1% since the last reported value or reached 1.0, updating
the last-reported value on each emission. -/
def progressEmitAux (last : ℚ) : List ℚ → List ℚ
  | [] => []
  | f :: rest =>
    if 1/100 ≤ f - last ∨ 1 ≤ f then f :: progressEmitAux f rest
    else progressEmitAux last rest

/-- Callback values delivered by a `progressReader` transfer: when the total
content length is positive the coalesced fraction sequence, otherwise nothing
(`pr.total > 0` guards every emission; the no-callback/no-length cases in
`DownloadForPreview` and `downloadToFile` also use a bare `io.Copy`). -/
def progressReaderTrace (total : Int) (reads : List Int) : List ℚ :=
  if 0 < total then progressEmitAux 0 (reads.map (fun r : Int => (r : ℚ) / (total : ℚ)))
  else []

/-- Outcome scenario for one `DownloadForPreview` run: which external steps
are available and succeed, and the cumulative byte counts observed by each
stream transfer before it finished or failed. -/
structure Scenario where
  ytdlpFound : Bool
  ffmpegFound : Bool
  ytdlpOk : Bool
  muxFormatsFound : Bool
  videoTotal : Int
  videoReads : List Int
  videoOk : Bool
  audioTotal : Int
  audioReads : List Int
  audioOk : Bool
  muxOk : Bool
  progTotal : Int
  progReads : List Int

/-- Progress values emitted by `downloadWithYtdlp` around `cmd.Run()`: `0.1`
before the run and `1.0` after it, unconditionally — also when yt-dlp fails. -/
def ytdlpFixedTrace : List ℚ := [1/10, 1]

/-- Whether the split-mux strategy succeeds. -/
def muxAttemptOk (sc : Scenario) : Bool := sc.videoOk && sc.audioOk && sc.muxOk

/-- Progress values emitted during one `downloadAndMux` attempt: the video
fetch reweighted to (0, 0.75), then the audio fetch reweighted to
(0.75, 0.20), then a final `1.0` after a successful mux. -/
def muxAttemptTrace (sc : Scenario) : List ℚ :=
  let vT := (progressReaderTrace sc.videoTotal sc.videoReads).map (weightedProgress 0 (3/4))
  if sc.videoOk = false then vT
  else
    let aT := (progressReaderTrace sc.audioTotal sc.audioReads).map (weightedProgress (3/4) (1/5))
    if sc.audioOk = false then vT ++ aT
    else if sc.muxOk = false then vT ++ aT
    else vT ++ aT ++ [1]

/-- Progress values delivered to the job callback over a whole
`DownloadForPreview` run: the yt-dlp strategy when yt-dlp and ffmpeg are
found (its two fixed values fire even on failure), then, on fallthrough, the
split-mux attempt when ffmpeg is present and a pair was found, then, on
fallthrough, the progressive download. -/
def previewTrace (sc : Scenario) : List ℚ :=
  let ytTried := sc.ytdlpFound && sc.ffmpegFound
  let ytT := if ytTried then ytdlpFixedTrace else []
  if ytTried && sc.ytdlpOk then ytT
  else
    let muxTried := sc.ffmpegFound && sc.muxFormatsFound
    let mT := if muxTried then muxAttemptTrace sc else []
    if muxTried && muxAttemptOk sc then ytT ++ mT
    else ytT ++ mT ++ progressReaderTrace sc.progTotal sc.progReads

/-- Concrete scenario refuting cross-strategy monotonicity: yt-dlp is present
but fails after reporting 0.1 and then 1.0; the split-mux fallback then
reports 0.015 for its first video bytes. -/
def cexScenario : Scenario :=
  { ytdlpFound := true, ffmpegFound := true, ytdlpOk := false,
    muxFormatsFound := true,
    videoTotal := 100, videoReads := [2], videoOk := false,
    audioTotal := 0, audioReads := [], audioOk := false, muxOk := false,
    progTotal := 0, progReads := [] }

/-!
File-system effects.  The set of paths present on disk is a `Finset String`;
`os.Create` inserts the destination (a failed copy leaves the partial file
present), `os.Remove` erases it.  Fallible steps are driven by explicit
scenario records.
-/
/-- Outcomes of the three fallible steps of a single stream fetch: opening
the stream, creating the destination file, and the `io.Copy` transfer. -/
structure FetchScenario where
  streamOk : Bool
  createOk : Bool
  copyOk : Bool
deriving DecidableEq

/-- Go `downloadToFile` as a file-system transformation: on stream or create
failure nothing was written; once the file is created it stays on disk even
when the copy fails — this function contains no `os.Remove`.  The Bool is
success. -/
def downloadToFileFS (fs : Finset String) (sc : FetchScenario) (dest : String) :
    Finset String × Bool :=
  if sc.streamOk = false then (fs, false)
  else if sc.createOk = false then (fs, false)
  else (insert dest fs, sc.copyOk)

/-- Progressive-path fetch inlined in `DownloadForPreview` (get stream,
`os.Create`, `io.Copy`, and `os.Remove(destPath)` when the copy fails). -/
def previewFetchFS (fs : Finset String) (sc : FetchScenario) (dest : String) :
    Finset String × Bool :=
  if sc.streamOk = false then (fs, false)
  else if sc.createOk = false then (fs, false)
  else if sc.copyOk then (insert dest fs, true)
  else ((insert dest fs).erase dest, false)

/-- Outcomes of the fallible steps of one `downloadAndMux` run; `muxPartialOut`
says whether the failing encoder run left a partial output file behind. -/
structure MuxScenario where
  videoFetch : FetchScenario
  audioFetch : FetchScenario
  muxOk : Bool
  muxPartialOut : Bool
deriving DecidableEq

/-- Go `downloadAndMux` as a file-system transformation over the video temp
path `vp`, audio temp path `ap` and output path `op`: a failed video fetch
removes `vp`; a failed audio fetch removes `vp` then `ap`; a failed encoder
run removes `vp`, `ap` and `op`; success removes `vp` and `ap`, keeping
`op`. -/
def downloadAndMuxFS (fs : Finset String) (sc : MuxScenario) (vp ap op : String) :
    Finset String × Bool :=
  match downloadToFileFS fs sc.videoFetch vp with
  | (fs1, false) => (fs1.erase vp, false)
  | (fs1, true) =>
    match downloadToFileFS fs1 sc.audioFetch ap with
    | (fs2, false) => ((fs2.erase vp).erase ap, false)
    | (fs2, true) =>
      if sc.muxOk then (((insert op fs2).erase vp).erase ap, true)
      else
        (((if sc.muxPartialOut then insert op fs2 else fs2).erase vp).erase ap |>.erase op, false)

/-- Fetch destination used in the C5 counterexample. -/
def cexDest : String := "clip-video.mp4"

/-- Failing-copy fetch scenario used in concrete instances. -/
def cexFetch : FetchScenario := { streamOk := true, createOk := true, copyOk := false }

/-- Mux scenario whose audio transfer fails mid-copy. -/
def cexMuxAudioFail : MuxScenario :=
  { videoFetch := { streamOk := true, createOk := true, copyOk := true },
    audioFetch := cexFetch, muxOk := false, muxPartialOut := false }

/-- Temp video path for the C6 witness. -/
def tmpVideoPath : String := "t-video.mp4"

/-- Temp audio path for the C6 witness. -/
def tmpAudioPath : String := "t-audio.m4a"

/-- Output path for the C6 witness. -/
def tmpOutPath : String := "t-preview.mp4"

/-!
Mux codec selection (`downloadAndMux`, lines building the ffmpeg argument
list).  Each ffmpeg argument string is a named constant so the assembled
argument list mirrors the source's `append` chain.
-/
def aY : String := "-y"

def aHideBanner : String := "-hide_banner"

def aLoglevel : String := "-loglevel"

def aQuietLevel : String := "error"

def aInput : String := "-i"

def aMapFlag : String := "-map"

def aMapVideo : String := "0:v:0"

def aMapAudio : String := "1:a:0"

def aCv : String := "-c:v"

def aCa : String := "-c:a"

def aCopy : String := "copy"

def aLibx264 : String := "libx264"

def aPresetFlag : String := "-preset"

def aMedium : String := "medium"

def aCrf : String := "-crf"

def aCrf18 : String := "18"

def aPixFmt : String := "-pix_fmt"

def aYuv420p : String := "yuv420p"

def aAac : String := "aac"

def aBitrateFlag : String := "-b:a"

def aBr192k : String := "192k"

def aMovflags : String := "-movflags"

def aFaststart : String := "+faststart"

def aShortest : String := "-shortest"

/-- Go `needsVideoTranscode` in `downloadAndMux`: the video track is
re-encoded when its mime type contains `vp9`, `vp09`, `av01` or `webm`. -/
def needsVideoTranscode (m : String) : Bool :=
  strContains m sVp9 || strContains m sVp09 || strContains m sAv01 || strContains m sWebm

/-- Go `needsAudioTranscode` in `downloadAndMux`: the audio track is
re-encoded when its mime type contains `opus` or `webm`. -/
def needsAudioTranscode (m : String) : Bool :=
  strContains m sOpus || strContains m sWebm

/-- Video codec arguments appended by `downloadAndMux`: a libx264 transcode
when `needsVideoTranscode`, else a stream copy. -/
def videoCodecArgs (m : String) : List String :=
  if needsVideoTranscode m then
    [aCv, aLibx264, aPresetFlag, aMedium, aCrf, aCrf18, aPixFmt, aYuv420p]
  else [aCv, aCopy]

/-- Audio codec arguments appended by `downloadAndMux`: an AAC transcode when
`needsAudioTranscode`, else a stream copy. -/
def audioCodecArgs (m : String) : List String :=
  if needsAudioTranscode m then [aCa, aAac, aBitrateFlag, aBr192k]
  else [aCa, aCopy]

/-- Complete ffmpeg argument list assembled by `downloadAndMux`. -/
def muxArgs (videoPath audioPath outPath vm am : String) : List String :=
  [aY, aHideBanner, aLoglevel, aQuietLevel, aInput, videoPath, aInput, audioPath,
    aMapFlag, aMapVideo, aMapFlag, aMapAudio] ++
    videoCodecArgs vm ++ audioCodecArgs am ++ [aMovflags, aFaststart, aShortest, outPath]

/-- Spec-side reading of "its codec is H.264": H.264 video is signalled by the
`avc1` codec tag in the variant's mime type. -/
def isH264Codec (m : String) : Bool := strContains m sAvc1

/-- Spec-side reading of "its codec is AAC": AAC audio is signalled by the
`mp4a` codec tag in the variant's mime type. -/
def isAacCodec (m : String) : Bool := strContains m sMp4a

/-- Mime type of an MP4/H.265 (hev1) video track. -/
def hev1Mime : String := "video/mp4; codecs=\"hev1.1.6.L93.B0\""

/-- Mime type of an MP4/FLAC audio track. -/
def flacMime : String := "audio/mp4; codecs=\"flac\""

/-!
Trim/export engine (ffmpeg processor `TrimVideoWithProgress` and
`App.ExportClip`).  Subprocess interaction is modelled by an environment
record; the goroutine that parses the encoder's progress stream is modelled
by a fold over the complete `out_time_ms=` lines it reads.
-/
def emptyString : String := ""

/-- Go `strconv.ParseInt(s, 10, 64)` on the rune list of `s`: an optional
sign, then at least one decimal digit and nothing else, with the int64 range
check (out-of-range input is an error, which the caller treats as a failed
parse). -/
def parseIntChars : List Char → Option Int
  | [] => none
  | c :: rest =>
    let signDigits : Bool × List Char :=
      if c = '+' then (false, rest)
      else if c = '-' then (true, rest)
      else (false, c :: rest)
    match
      (if signDigits.2 = [] then none
       else if signDigits.2.all Char.isDigit then
         some (signDigits.2.foldl (fun acc d => acc * 10 + (d.toNat - '0'.toNat)) 0)
       else none : Option Nat) with
    | none => none
    | some n =>
      if signDigits.1 then
        if (n : Int) ≤ 2 ^ 63 then some (-(n : Int)) else none
      else
        if (n : Int) < 2 ^ 63 then some (n : Int) else none

/-- Prefix of the machine-readable encoder progress lines. -/
def outTimeKey : String := "out_time_ms="

/-- Parsing of one progress line: `strings.HasPrefix(line, "out_time_ms=")`,
`strings.TrimPrefix`, then `strconv.ParseInt`. -/
def parseOutTime (l : String) : Option Int :=
  if preMatch outTimeKey.toList l.toList then
    parseIntChars (l.toList.drop outTimeKey.toList.length)
  else none

/-- Value forwarded for a parsed `out_time_ms` integer: microseconds to
seconds, divided by the requested duration, clamped above at 1.0 (and only
above). -/
def lineProgress (duration : ℚ) (ms : Int) : ℚ :=
  if 1 < ((ms : ℚ) / 1000000) / duration then 1
  else ((ms : ℚ) / 1000000) / duration

/-- Values forwarded to `onProgress` by the progress-parsing goroutine for
the given complete lines: one per parsed `out_time_ms=` line, provided the
requested duration is positive (the callback is assumed non-nil). -/
def trimProgressEmits (duration : ℚ) (lines : List String) : List ℚ :=
  lines.filterMap (fun l =>
    match parseOutTime l with
    | some ms => if 0 < duration then some (lineProgress duration ms) else none
    | none => none)

/-- Go `ffmpeg.TrimOptions`. -/
structure TrimOpts where
  inputPath : String
  outputPath : String
  startTime : ℚ
  endTime : ℚ
  removeAudio : Bool
  maxHeight : Int
  crf : Int
  preset : String
  audioBitrate : String

/-- Environment of one `TrimVideoWithProgress` call: which fallible steps
succeed (input stat, output-directory creation, stdout pipe, process start,
process wait) and the progress lines the reader goroutine sees. -/
structure TrimEnv where
  inputExists : Bool
  mkdirOk : Bool
  pipeOk : Bool
  startOk : Bool
  waitOk : Bool
  outLines : List String

/-- Observable outcome of one `TrimVideoWithProgress` call: success flag, the
values delivered to the progress callback, and how many times the encoder
subprocess was started. -/
structure TrimResult where
  ok : Bool
  trace : List ℚ
  launches : Nat

/-- Go `Processor.TrimVideoWithProgress`: validations in source order
(ffmpeg path set, input file exists, `end > start`, output directory
creatable), then pipe setup, then `cmd.Start()`; on a successful
`cmd.Wait()` a final `progressCb(1.0)` is appended to the parsed trace.
The ffmpeg argument construction is pure and not consulted by any claim, so
it is elided here. -/
def trimVideoWithProgress (ffmpegPath : String) (env : TrimEnv) (opts : TrimOpts) :
    TrimResult :=
  if ffmpegPath = emptyString then { ok := false, trace := [], launches := 0 }
  else if env.inputExists = false then { ok := false, trace := [], launches := 0 }
  else if opts.endTime ≤ opts.startTime then { ok := false, trace := [], launches := 0 }
  else if env.mkdirOk = false then { ok := false, trace := [], launches := 0 }
  else if env.pipeOk = false then { ok := false, trace := [], launches := 0 }
  else if env.startOk = false then { ok := false, trace := [], launches := 1 }
  else
    let tr := trimProgressEmits (opts.endTime - opts.startTime) env.outLines
    if env.waitOk = false then { ok := false, trace := tr, launches := 1 }
    else { ok := true, trace := tr ++ [1], launches := 1 }

def slashStr : String := "/"

/-- Go `filepath.IsAbs` on Unix: the path begins with a slash. -/
def isAbsPath (p : String) : Bool := preMatch slashStr.toList p.toList

/-- Unicode white space set of Go `unicode.IsSpace` (the `White_Space`
property). -/
def isGoSpace (c : Char) : Bool :=
  (9 ≤ c.toNat && c.toNat ≤ 13) || (c.toNat = 32 : Bool) || (c.toNat = 133 : Bool) ||
    (c.toNat = 160 : Bool) || (c.toNat = 0x1680 : Bool) ||
    (0x2000 ≤ c.toNat && c.toNat ≤ 0x200A) || (c.toNat = 0x2028 : Bool) ||
    (c.toNat = 0x2029 : Bool) || (c.toNat = 0x202F : Bool) ||
    (c.toNat = 0x205F : Bool) || (c.toNat = 0x3000 : Bool)

/-- Trim a predicate from both ends of a rune list (Go `strings.Trim` with a
cutset, and `strings.TrimSpace` with `isGoSpace`). -/
def dropEnds (p : Char → Bool) (l : List Char) : List Char :=
  ((l.dropWhile p).reverse.dropWhile p).reverse

/-- Go `sanitizeFilename` of app.go (the export-name sanitizer): trim spaces,
empty stays empty, map `/`, `\` and NUL to `_`, trim dots and spaces from the
ends, cap the length at 120.  The cap is byte-based in Go (`name[:120]`); it
is modelled here on runes, which affects none of the properties studied. -/
def sanitizeFilenameApp (name : List Char) : List Char :=
  if dropEnds isGoSpace name = [] then []
  else
    (fun n3 => if 120 < n3.length then n3.take 120 else n3)
      (dropEnds (fun c => c = '.' ∨ c = ' ')
        ((dropEnds isGoSpace name).map
          (fun r => if r = '/' ∨ r = '\\' ∨ r.toNat = 0 then '_' else r)))

/-- Fallback clip name used by `ExportClip` when sanitizing leaves nothing. -/
def clipName : List Char := ['c', 'l', 'i', 'p']

/-- Go `ExportOptions` of app.go. -/
structure ExportOpts where
  startTime : ℚ
  endTime : ℚ
  removeAudio : Bool
  filename : String
  outputDir : String
  quality : String

/-- Environment of one `App.ExportClip` call. -/
structure AppEnv where
  ffmpegInstalled : Bool
  ffmpegPath : String
  currentVideoPath : String
  trimEnv : TrimEnv

def s1080p : String := "1080p"

def s720p : String := "720p"

def s480p : String := "480p"

def s360p : String := "360p"

def presetSlow : String := "slow"

def presetMedium : String := "medium"

def presetFast : String := "fast"

def br160k : String := "160k"

def br128k : String := "128k"

def br112k : String := "112k"

def br96k : String := "96k"

/-- Quality switch of `ExportClip`: the four fixed tiers plus the default
"original" tier with no resize. -/
def qualityOpts (q : String) (base : TrimOpts) : TrimOpts :=
  if q = s1080p then
    { base with maxHeight := 1080, crf := 21, preset := presetSlow, audioBitrate := br160k }
  else if q = s720p then
    { base with maxHeight := 720, crf := 23, preset := presetMedium, audioBitrate := br128k }
  else if q = s480p then
    { base with maxHeight := 480, crf := 26, preset := presetMedium, audioBitrate := br112k }
  else if q = s360p then
    { base with maxHeight := 360, crf := 28, preset := presetFast, audioBitrate := br96k }
  else
    { base with maxHeight := 0, crf := 23, preset := presetMedium, audioBitrate := br128k }

/-- Go `App.ExportClip` up to its observable (success, encoder launches)
outcome: ffmpeg-installed check, loaded-video check, filename sanitizing with
the `clip` fallback, the absolute-output-directory check — all before the
processor exists — then the trim call.  Output-path assembly (extension
normalization and path join) is pure string building not consulted by any
claim and is elided. -/
def exportClip (env : AppEnv) (opts : ExportOpts) : Bool × Nat :=
  if env.ffmpegInstalled = false then (false, 0)
  else if env.currentVideoPath = emptyString then (false, 0)
  else
    let filename0 := sanitizeFilenameApp opts.filename.toList
    let _filename1 := if filename0 = [] then clipName else filename0
    if isAbsPath opts.outputDir = false then (false, 0)
    else
      let trimOpts : TrimOpts := qualityOpts opts.quality
        { inputPath := env.currentVideoPath, outputPath := opts.outputDir,
          startTime := opts.startTime, endTime := opts.endTime,
          removeAudio := opts.removeAudio, maxHeight := 0, crf := 0,
          preset := emptyString, audioBitrate := emptyString }
      let r := trimVideoWithProgress env.ffmpegPath env.trimEnv trimOpts
      (r.ok, r.launches)

/-- Trim environment whose input file is missing. -/
def noInputTrimEnv : TrimEnv :=
  { inputExists := false, mkdirOk := true, pipeOk := true, startOk := true,
    waitOk := true, outLines := [] }

/-- Trim options with `end ≤ start` (5 down to 3). -/
def badRangeTrimOpts : TrimOpts :=
  { inputPath := emptyString, outputPath := emptyString, startTime := 5, endTime := 3,
    removeAudio := false, maxHeight := 0, crf := 0, preset := emptyString,
    audioBitrate := emptyString }

/-- Relative output directory. -/
def relOutputDir : String := "clips/out"

/-- Export options whose output directory is relative. -/
def relDirExportOpts : ExportOpts :=
  { startTime := 0, endTime := 1, removeAudio := false, filename := emptyString,
    outputDir := relOutputDir, quality := emptyString }

/-- App environment for the C8 witness. -/
def witnessAppEnv : AppEnv :=
  { ffmpegInstalled := true, ffmpegPath := emptyString,
    currentVideoPath := slashStr, trimEnv := noInputTrimEnv }

/-- Progress line carrying a negative `out_time_ms` value (ffmpeg emits these
near stream starts; `strconv.ParseInt` accepts the sign). -/
def negOutTimeLine : String := "out_time_ms=-1000000"

/-- Binary name used in the C9 witness. -/
def ffmpegBinName : String := "ffmpeg"

/-- Progress line carrying 2.5 seconds. -/
def posOutTimeLine : String := "out_time_ms=2500000"

/-- Fully succeeding trim environment for the C9 witness. -/
def goodTrimEnv : TrimEnv :=
  { inputExists := true, mkdirOk := true, pipeOk := true, startOk := true,
    waitOk := true, outLines := [posOutTimeLine] }

/-- Valid 0–5 second trim request for the C9 witness. -/
def goodTrimOpts : TrimOpts :=
  { inputPath := slashStr, outputPath := slashStr, startTime := 0, endTime := 5,
    removeAudio := false, maxHeight := 0, crf := 23, preset := presetMedium,
    audioBitrate := br128k }

/-!
Filename sanitizing (`sanitizeFilename` in downloader.go).  Go strings are
UTF-8 byte strings; the model works on rune lists and measures byte length
through the UTF-8 size of each rune.
-/
/-- Characters replaced by `sanitizeFilename` in downloader.go. -/
def invalidFilenameChars : List Char := ['/', '\\', ':', '*', '?', '\"', '<', '>', '|']

/-- Go `strings.ReplaceAll(s, string(c), string(repl))` for single runes. -/
def replaceAllChar (s : List Char) (c repl : Char) : List Char :=
  s.map (fun x => if x = c then repl else x)

/-- The replacement loop of `sanitizeFilename`: each invalid character is
replaced by an underscore, in order. -/
def sanitizeReplaced (name : List Char) : List Char :=
  invalidFilenameChars.foldl (fun acc c => replaceAllChar acc c '_') name

/-- UTF-8 encoded size of a rune, in bytes. -/
def utf8Size (c : Char) : Nat :=
  if c.toNat < 0x80 then 1 else if c.toNat < 0x800 then 2
  else if c.toNat < 0x10000 then 3 else 4

/-- Byte length of a rune list under UTF-8 (Go `len` on the string). -/
def byteLen (l : List Char) : Nat := (l.map utf8Size).sum

/-- Longest rune prefix fitting in `n` bytes.  Go's `result[:200]` slices
bytes and may keep the leading bytes of a split multibyte rune; those bytes
are not characters (and are non-ASCII), so the model drops them — the byte
length stays at most `n` either way. -/
def truncBytes : Nat → List Char → List Char
  | _, [] => []
  | n, c :: rest => if utf8Size c ≤ n then c :: truncBytes (n - utf8Size c) rest else []

/-- Go `sanitizeFilename` of downloader.go: replace the invalid characters by
underscores, trim white space then dots from the ends, and cap the result at
200 bytes. -/
def sanitizeFilename (name : List Char) : List Char :=
  if 200 < byteLen (dropEnds (fun c => c = '.') (dropEnds isGoSpace (sanitizeReplaced name)))
  then truncBytes 200 (dropEnds (fun c => c = '.') (dropEnds isGoSpace (sanitizeReplaced name)))
  else dropEnds (fun c => c = '.') (dropEnds isGoSpace (sanitizeReplaced name))

/-- Result of a best-of fold is the seed or one of the folded elements. -/
theorem foldlPick_mem {α : Type} (step : α → α → α)
    (hstep : ∀ b f, step b f = b ∨ step b f = f) :
    ∀ (l : List α) (b : α), l.foldl step b ∈ b :: l := by
  intro l
  induction l with
  | nil => intro b; simp
  | cons f t ih =>
    intro b
    rw [List.foldl_cons]
    rcases List.mem_cons.mp (ih (step b f)) with h | h
    · rcases hstep b f with h2 | h2
      · rw [h, h2]; exact List.mem_cons_self _ _
      · rw [h, h2]; exact List.mem_cons_of_mem _ (List.mem_cons_self _ _)
    · exact List.mem_cons_of_mem _ (List.mem_cons_of_mem _ h)

/-- Result of a best-of fold is an upper bound of seed and folded elements for
any preorder the loop body respects. -/
theorem foldlPick_ub {α : Type} (le : α → α → Prop) (step : α → α → α)
    (hrefl : ∀ f, le f f)
    (htrans : ∀ x y z, le x y → le y z → le x z)
    (hub : ∀ b f, le b (step b f) ∧ le f (step b f)) :
    ∀ (l : List α) (b : α) (x : α), x ∈ b :: l → le x (l.foldl step b) := by
  intro l
  induction l with
  | nil =>
    intro b x hx
    rcases List.mem_cons.mp hx with rfl | h
    · exact hrefl x
    · simp at h
  | cons f t ih =>
    intro b x hx
    rw [List.foldl_cons]
    rcases List.mem_cons.mp hx with rfl | hx'
    · exact htrans x (step x f) _ (hub x f).1 (ih (step x f) _ (List.mem_cons_self _ _))
    · rcases List.mem_cons.mp hx' with rfl | hx''
      · exact htrans x (step b x) _ (hub b x).2 (ih (step b x) _ (List.mem_cons_self _ _))
      · exact ih (step b f) x (List.mem_cons_of_mem _ hx'')

theorem prefLE720_refl (f : Format) : prefLE720 f f := by
  unfold prefLE720; split_ifs <;> omega

theorem prefLE720_trans (x y z : Format) (h1 : prefLE720 x y) (h2 : prefLE720 y z) :
    prefLE720 x z := by
  unfold prefLE720 at h1 h2 ⊢; split_ifs at h1 h2 ⊢ <;> omega

theorem pickStepWithAudio_or (b f : Format) :
    pickStepWithAudio b f = b ∨ pickStepWithAudio b f = f := by
  unfold pickStepWithAudio; split_ifs <;> simp

theorem pickStepWithAudio_ub (b f : Format) :
    prefLE720 b (pickStepWithAudio b f) ∧ prefLE720 f (pickStepWithAudio b f) := by
  unfold pickStepWithAudio prefLE720; split_ifs <;> omega

/-- Characterisation of `pickBestWithAudio`: on a non-empty list it returns a
member that is maximal for the 720-pinned preference order. -/
theorem pickBestWithAudio_spec (l : List Format) (r : Format)
    (h : pickBestWithAudio l = some r) :
    r ∈ l ∧ ∀ f ∈ l, prefLE720 f r := by
  match l, h with
  | f :: rest, h =>
    have hr : r = rest.foldl pickStepWithAudio f := by
      simpa [pickBestWithAudio] using h.symm
    subst hr
    exact ⟨foldlPick_mem _ pickStepWithAudio_or rest f,
      fun g hg => foldlPick_ub prefLE720 pickStepWithAudio prefLE720_refl
        prefLE720_trans pickStepWithAudio_ub rest f g hg⟩

theorem pickBestWithAudio_eq_none (l : List Format) :
    pickBestWithAudio l = none ↔ l = [] := by
  cases l <;> simp [pickBestWithAudio]

theorem prefLEHeight_refl (f : Format) : prefLEHeight f f := by
  unfold prefLEHeight; omega

theorem prefLEHeight_trans (x y z : Format) (h1 : prefLEHeight x y) (h2 : prefLEHeight y z) :
    prefLEHeight x z := by
  unfold prefLEHeight at h1 h2 ⊢; omega

theorem pickStepVideoOnly_or (b f : Format) :
    pickStepVideoOnly b f = b ∨ pickStepVideoOnly b f = f := by
  unfold pickStepVideoOnly; split_ifs <;> simp

theorem pickStepVideoOnly_ub (b f : Format) :
    prefLEHeight b (pickStepVideoOnly b f) ∧ prefLEHeight f (pickStepVideoOnly b f) := by
  unfold pickStepVideoOnly prefLEHeight; split_ifs <;> omega

theorem pickBestVideoOnly_spec (l : List Format) (r : Format)
    (h : pickBestVideoOnly l = some r) :
    r ∈ l ∧ ∀ f ∈ l, prefLEHeight f r := by
  match l, h with
  | f :: rest, h =>
    have hr : r = rest.foldl pickStepVideoOnly f := by
      simpa [pickBestVideoOnly] using h.symm
    subst hr
    exact ⟨foldlPick_mem _ pickStepVideoOnly_or rest f,
      fun g hg => foldlPick_ub prefLEHeight pickStepVideoOnly prefLEHeight_refl
        prefLEHeight_trans pickStepVideoOnly_ub rest f g hg⟩

theorem pickStepAudioOnly_or (b f : Format) :
    pickStepAudioOnly b f = b ∨ pickStepAudioOnly b f = f := by
  unfold pickStepAudioOnly; split_ifs <;> simp

theorem pickStepAudioOnly_ub (b f : Format) :
    prefLEBitrate b (pickStepAudioOnly b f) ∧ prefLEBitrate f (pickStepAudioOnly b f) := by
  unfold pickStepAudioOnly prefLEBitrate; split_ifs <;> omega

theorem pickBestAudioOnly_spec (l : List Format) (r : Format)
    (h : pickBestAudioOnly l = some r) :
    r ∈ l ∧ ∀ f ∈ l, prefLEBitrate f r := by
  match l, h with
  | f :: rest, h =>
    have hr : r = rest.foldl pickStepAudioOnly f := by
      simpa [pickBestAudioOnly] using h.symm
    subst hr
    refine ⟨foldlPick_mem _ pickStepAudioOnly_or rest f,
      fun g hg => foldlPick_ub prefLEBitrate pickStepAudioOnly (fun x => le_refl _)
        (fun x y z hxy hyz => le_trans hxy hyz) pickStepAudioOnly_ub rest f g hg⟩

/-- C1 (amended): `selectFormat` returns a variant of the highest non-empty
tier among (1) MP4 + avc1 + mp4a progressive, (2) MP4 progressive, (3) any
progressive, (4) any video-tagged variant; within tiers (1)-(3) the returned
variant is maximal for the 720-pinned preference order (height 720 first,
then strictly greater height, then strictly greater bitrate on equal
height), while tier (4) applies no tie-break at all: it returns the first
video-tagged variant in list order. -/
theorem selectFormat_picks_top_tier (formats : List Format) (r : Format)
    (h : selectFormat formats = some r) :
    r ∈ formats ∧
    (formats.filter fmtIsMp4H264 ≠ [] →
      fmtIsMp4H264 r = true ∧ ∀ f ∈ formats.filter fmtIsMp4H264, prefLE720 f r) ∧
    (formats.filter fmtIsMp4H264 = [] → formats.filter fmtIsMp4Any ≠ [] →
      fmtIsMp4Any r = true ∧ ∀ f ∈ formats.filter fmtIsMp4Any, prefLE720 f r) ∧
    (formats.filter fmtIsMp4Any = [] → formats.filter fmtIsWithAudio ≠ [] →
      fmtIsWithAudio r = true ∧ ∀ f ∈ formats.filter fmtIsWithAudio, prefLE720 f r) ∧
    (formats.filter fmtIsWithAudio = [] →
      formats.find? (fun f => strContains f.mimeType sVideo) = some r) ∧
    strContains r.mimeType sVideo = true := by
  rcases h1 : pickBestWithAudio (formats.filter fmtIsMp4H264) with _ | b1
  · rcases h2 : pickBestWithAudio (formats.filter fmtIsMp4Any) with _ | b2
    · rcases h3 : pickBestWithAudio (formats.filter fmtIsWithAudio) with _ | b3
      · have h4 : formats.find? (fun f => strContains f.mimeType sVideo) = some r := by
          simpa [selectFormat, h1, h2, h3] using h
        have e1 := (pickBestWithAudio_eq_none _).mp h1
        have e2 := (pickBestWithAudio_eq_none _).mp h2
        have e3 := (pickBestWithAudio_eq_none _).mp h3
        refine ⟨List.mem_of_find?_eq_some h4, ?_, ?_, ?_, ?_, ?_⟩
        · intro hne; exact absurd e1 hne
        · intro _ hne; exact absurd e2 hne
        · intro _ hne; exact absurd e3 hne
        · intro _; exact h4
        · have hp := List.find?_some h4
          simpa using hp
      · have hb : b3 = r := by simpa [selectFormat, h1, h2, h3] using h
        subst hb
        obtain ⟨hmem, hub⟩ := pickBestWithAudio_spec _ _ h3
        have e1 := (pickBestWithAudio_eq_none _).mp h1
        have e2 := (pickBestWithAudio_eq_none _).mp h2
        have hpred := (List.mem_filter.mp hmem).2
        have hvid : strContains b3.mimeType sVideo = true := by
          have := hpred
          simp only [fmtIsWithAudio, Bool.and_eq_true] at this
          exact this.2
        refine ⟨(List.mem_filter.mp hmem).1, ?_, ?_, ?_, ?_, hvid⟩
        · intro hne; exact absurd e1 hne
        · intro _ hne; exact absurd e2 hne
        · intro _ _; exact ⟨hpred, hub⟩
        · intro he
          have hm := hmem
          rw [he] at hm
          exact absurd hm (List.not_mem_nil _)
    · have hb : b2 = r := by simpa [selectFormat, h1, h2] using h
      subst hb
      obtain ⟨hmem, hub⟩ := pickBestWithAudio_spec _ _ h2
      have e1 := (pickBestWithAudio_eq_none _).mp h1
      have hpred := (List.mem_filter.mp hmem).2
      have hwa : fmtIsWithAudio b2 = true := by
        have := hpred
        simp only [fmtIsMp4Any, Bool.and_eq_true] at this
        exact this.1
      have hvid : strContains b2.mimeType sVideo = true := by
        have := hwa
        simp only [fmtIsWithAudio, Bool.and_eq_true] at this
        exact this.2
      refine ⟨(List.mem_filter.mp hmem).1, ?_, ?_, ?_, ?_, hvid⟩
      · intro hne; exact absurd e1 hne
      · intro _ _; exact ⟨hpred, hub⟩
      · intro he _
        have : b2 ∈ formats.filter fmtIsMp4Any := hmem
        rw [he] at this
        exact absurd this (List.not_mem_nil _)
      · intro he
        have hm : b2 ∈ formats.filter fmtIsWithAudio :=
          List.mem_filter.mpr ⟨(List.mem_filter.mp hmem).1, hwa⟩
        rw [he] at hm
        exact absurd hm (List.not_mem_nil _)
  · have hb : b1 = r := by simpa [selectFormat, h1] using h
    subst hb
    obtain ⟨hmem, hub⟩ := pickBestWithAudio_spec _ _ h1
    have hpred := (List.mem_filter.mp hmem).2
    have hany : fmtIsMp4Any b1 = true := by
      have := hpred
      simp only [fmtIsMp4H264, Bool.and_eq_true] at this
      exact this.1.1
    have hwa : fmtIsWithAudio b1 = true := by
      have := hany
      simp only [fmtIsMp4Any, Bool.and_eq_true] at this
      exact this.1
    have hvid : strContains b1.mimeType sVideo = true := by
      have := hwa
      simp only [fmtIsWithAudio, Bool.and_eq_true] at this
      exact this.2
    refine ⟨(List.mem_filter.mp hmem).1, ?_, ?_, ?_, ?_, hvid⟩
    · intro _; exact ⟨hpred, hub⟩
    · intro he _
      have : b1 ∈ formats.filter fmtIsMp4H264 := hmem
      rw [he] at this
      exact absurd this (List.not_mem_nil _)
    · intro he _
      have hm : b1 ∈ formats.filter fmtIsMp4Any :=
        List.mem_filter.mpr ⟨(List.mem_filter.mp hmem).1, hany⟩
      rw [he] at hm
      exact absurd hm (List.not_mem_nil _)
    · intro he
      have hm : b1 ∈ formats.filter fmtIsWithAudio :=
        List.mem_filter.mpr ⟨(List.mem_filter.mp hmem).1, hwa⟩
      rw [he] at hm
      exact absurd hm (List.not_mem_nil _)

/-- Witness for C1 at the claim's concrete input: progressive variants with
audio at heights 480, 720 and 1080 — the 720 one is selected and is maximal
in the top tier. -/
theorem selectFormat_picks_top_tier_witness :
    selectFormat [exFmt480, exFmt720, exFmt1080] = some exFmt720 ∧
    [exFmt480, exFmt720, exFmt1080].filter fmtIsMp4H264 ≠ [] ∧
    (fmtIsMp4H264 exFmt720 = true ∧
      ∀ f ∈ [exFmt480, exFmt720, exFmt1080].filter fmtIsMp4H264, prefLE720 f exFmt720) :=
  ⟨rfl, by decide,
    (selectFormat_picks_top_tier [exFmt480, exFmt720, exFmt1080] exFmt720 rfl).2.1 (by decide)⟩

/-- Counterexample to C1 as stated: a variant set whose highest non-empty
tier is tier (4) — two video-only MP4 variants at heights 480 and 720, no
variant with both tracks — for which `selectFormat` returns the 480 variant,
the first video-tagged one in list order, although the 720 variant is
strictly preferred by the claimed within-tier tie-break.  The last-resort
loop of `selectFormat` applies no preference at all. -/
theorem selectFormat_tier4_no_tiebreak_counterexample :
    [exV480, exV720].filter fmtIsWithAudio = [] ∧
    strContains exV480.mimeType sVideo = true ∧
    strContains exV720.mimeType sVideo = true ∧
    exV480.height = 480 ∧ exV720.height = 720 ∧
    selectFormat [exV480, exV720] = some exV480 ∧
    ¬ prefLE720 exV720 exV480 := by
  refine ⟨by decide, by decide, by decide, by decide, by decide, rfl, ?_⟩
  unfold prefLE720
  decide

/-- C3: split-pair selection restricts video-only and audio-only candidates to
MP4/WebM containers and returns, on the video side, a candidate maximal for
strict height (bitrate tie-break), and on the audio side a candidate maximal
for bitrate; the 720-pinned rule is absent from this order. -/
theorem selectMuxFormats_best_pair (formats : List Format) (v a : Format)
    (hv : (selectMuxFormats formats).1 = some v)
    (ha : (selectMuxFormats formats).2 = some a) :
    (fmtIsVideoOnlyCand v = true ∧ v ∈ formats ∧
      ∀ f ∈ formats.filter fmtIsVideoOnlyCand, prefLEHeight f v) ∧
    (fmtIsAudioOnlyCand a = true ∧ a ∈ formats ∧
      ∀ f ∈ formats.filter fmtIsAudioOnlyCand, prefLEBitrate f a) := by
  have hv' : pickBestVideoOnly (formats.filter fmtIsVideoOnlyCand) = some v := by
    simpa [selectMuxFormats] using hv
  have ha' : pickBestAudioOnly (formats.filter fmtIsAudioOnlyCand) = some a := by
    simpa [selectMuxFormats] using ha
  obtain ⟨hvm, hvub⟩ := pickBestVideoOnly_spec _ _ hv'
  obtain ⟨ham, haub⟩ := pickBestAudioOnly_spec _ _ ha'
  exact ⟨⟨(List.mem_filter.mp hvm).2, (List.mem_filter.mp hvm).1, hvub⟩,
    ⟨(List.mem_filter.mp ham).2, (List.mem_filter.mp ham).1, haub⟩⟩

/-- Witness for C3 at the claim's concrete input: video-only candidates at
heights 480, 720 and 1080 — the 1080 one is selected (the 720-pin does not
apply in split mode). -/
theorem selectMuxFormats_best_pair_witness :
    selectMuxFormats [exV480, exV720, exV1080, exA128] = (some exV1080, some exA128) ∧
    (fmtIsVideoOnlyCand exV1080 = true ∧ exV1080 ∈ [exV480, exV720, exV1080, exA128] ∧
      ∀ f ∈ [exV480, exV720, exV1080, exA128].filter fmtIsVideoOnlyCand, prefLEHeight f exV1080) :=
  ⟨rfl, (selectMuxFormats_best_pair [exV480, exV720, exV1080, exA128] exV1080 exA128 rfl rfl).1⟩

theorem progressEmitAux_sublist :
    ∀ (fracs : List ℚ) (last : ℚ), (progressEmitAux last fracs).Sublist fracs := by
  intro fracs
  induction fracs with
  | nil => intro last; simp [progressEmitAux]
  | cons f rest ih =>
    intro last
    unfold progressEmitAux
    split
    · exact List.Sublist.cons₂ f (ih f)
    · exact List.Sublist.cons f (ih last)

theorem progressEmitAux_chain :
    ∀ (fracs : List ℚ) (last : ℚ),
      List.Chain (fun a b => 1/100 ≤ b - a ∨ 1 ≤ b) last (progressEmitAux last fracs) := by
  intro fracs
  induction fracs with
  | nil => intro last; exact List.Chain.nil
  | cons f rest ih =>
    intro last
    unfold progressEmitAux
    split
    · exact List.Chain.cons (by assumption) (ih f)
    · exact ih last

theorem progressEmitAux_one_mem :
    ∀ (fracs : List ℚ) (last : ℚ), (1 : ℚ) ∈ fracs →
      (1 : ℚ) ∈ progressEmitAux last fracs := by
  intro fracs
  induction fracs with
  | nil => intro last h; simp at h
  | cons f rest ih =>
    intro last h
    unfold progressEmitAux
    rcases List.mem_cons.mp h with rfl | h'
    · rw [if_pos (Or.inr le_rfl)]
      exact List.mem_cons_self _ _
    · split
      · exact List.mem_cons_of_mem _ (ih f h')
      · exact ih last h'

theorem clamp01_mono {a b : ℚ} (h : a ≤ b) : clamp01 a ≤ clamp01 b := by
  unfold clamp01; split_ifs <;> linarith

theorem clamp01_nonneg (p : ℚ) : 0 ≤ clamp01 p := by
  unfold clamp01; split_ifs <;> linarith

theorem clamp01_le_one (p : ℚ) : clamp01 p ≤ 1 := by
  unfold clamp01; split_ifs <;> linarith

theorem weightedProgress_mono (base weight : ℚ) (hw : 0 ≤ weight) {a b : ℚ}
    (h : a ≤ b) : weightedProgress base weight a ≤ weightedProgress base weight b := by
  unfold weightedProgress
  exact add_le_add_left (mul_le_mul_of_nonneg_right (clamp01_mono h) hw) base

theorem weightedProgress_bounds (base weight p : ℚ) (hw : 0 ≤ weight) :
    base ≤ weightedProgress base weight p ∧ weightedProgress base weight p ≤ base + weight := by
  unfold weightedProgress
  constructor
  · nlinarith [clamp01_nonneg p]
  · nlinarith [clamp01_le_one p]

theorem progressReaderTrace_sorted (total : Int) (reads : List Int)
    (h : List.Sorted (· ≤ ·) reads) :
    List.Sorted (· ≤ ·) (progressReaderTrace total reads) := by
  unfold progressReaderTrace
  split
  · rename_i ht
    have htq : (0 : ℚ) < (total : ℚ) := by exact_mod_cast ht
    refine List.Pairwise.sublist (progressEmitAux_sublist _ _) ?_
    refine List.Pairwise.map _ ?_ h
    intro a b hab
    have hc : (a : ℚ) ≤ (b : ℚ) := by exact_mod_cast hab
    exact div_le_div_of_nonneg_right hc htq.le
  · exact List.sorted_nil

theorem weighted_map_sorted (base weight : ℚ) (hw : 0 ≤ weight) (l : List ℚ)
    (hl : List.Sorted (· ≤ ·) l) :
    List.Sorted (· ≤ ·) (l.map (weightedProgress base weight)) := by
  exact List.Pairwise.map _ (fun _ _ hab => weightedProgress_mono base weight hw hab) hl

theorem weighted_map_bounds (base weight : ℚ) (hw : 0 ≤ weight) (l : List ℚ) :
    ∀ x ∈ l.map (weightedProgress base weight), base ≤ x ∧ x ≤ base + weight := by
  intro x hx
  rcases List.mem_map.mp hx with ⟨p, _, rfl⟩
  exact weightedProgress_bounds base weight p hw

theorem muxAttemptTrace_sorted (sc : Scenario)
    (hvr : List.Sorted (· ≤ ·) sc.videoReads)
    (har : List.Sorted (· ≤ ·) sc.audioReads) :
    List.Sorted (· ≤ ·) (muxAttemptTrace sc) := by
  have hvS := weighted_map_sorted 0 (3/4) (by norm_num) _
    (progressReaderTrace_sorted sc.videoTotal sc.videoReads hvr)
  have haS := weighted_map_sorted (3/4) (1/5) (by norm_num) _
    (progressReaderTrace_sorted sc.audioTotal sc.audioReads har)
  have hvB := weighted_map_bounds 0 (3/4) (by norm_num)
    (progressReaderTrace sc.videoTotal sc.videoReads)
  have haB := weighted_map_bounds (3/4) (1/5) (by norm_num)
    (progressReaderTrace sc.audioTotal sc.audioReads)
  have h12 : List.Sorted (· ≤ ·)
      ((progressReaderTrace sc.videoTotal sc.videoReads).map (weightedProgress 0 (3/4)) ++
        (progressReaderTrace sc.audioTotal sc.audioReads).map (weightedProgress (3/4) (1/5))) :=
    List.pairwise_append.mpr ⟨hvS, haS, fun x hx y hy => by
      have h1 := (hvB x hx).2
      have h2 := (haB y hy).1
      linarith⟩
  have h123 : List.Sorted (· ≤ ·)
      ((progressReaderTrace sc.videoTotal sc.videoReads).map (weightedProgress 0 (3/4)) ++
        (progressReaderTrace sc.audioTotal sc.audioReads).map (weightedProgress (3/4) (1/5)) ++
        [(1 : ℚ)]) := by
    refine List.pairwise_append.mpr ⟨h12, by simp, fun x hx y hy => ?_⟩
    have hy1 : y = 1 := by simpa using hy
    subst hy1
    rcases List.mem_append.mp hx with hxl | hxr
    · have := (hvB x hxl).2
      linarith
    · have := (haB x hxr).2
      linarith
  unfold muxAttemptTrace
  dsimp only
  split_ifs <;> first | exact hvS | exact h12 | exact h123

/-- Counterexample to C2 as stated: the full progress trace of a
`DownloadForPreview` run in which yt-dlp fails is `[0.1, 1.0, 0.015]`, which
is not monotonically non-decreasing — `downloadWithYtdlp` invokes the
callback with `1.0` even when `cmd.Run()` fails, and the split-mux fallback
then restarts from small values. -/
theorem previewTrace_monotone_counterexample :
    previewTrace cexScenario = [1/10, 1, 3/200] ∧
    ¬ List.Sorted (· ≤ ·) (previewTrace cexScenario) := by
  have h : previewTrace cexScenario = [1/10, 1, 3/200] := by
    norm_num [previewTrace, cexScenario, muxAttemptTrace, muxAttemptOk,
      progressReaderTrace, progressEmitAux, weightedProgress, clamp01, ytdlpFixedTrace]
  refine ⟨h, ?_⟩
  rw [h]
  intro hs
  have h2 := (List.sorted_cons.mp (List.sorted_cons.mp hs).2).1 (3/200) (by simp)
  norm_num at h2

/-- C2 (amended): each single strategy attempt delivers a monotonically
non-decreasing progress trace, provided the cumulative byte counts of each
transfer are non-decreasing; the cross-strategy guarantee of the original
claim fails (see the counterexample). -/
theorem strategy_traces_monotone (sc : Scenario)
    (hvr : List.Sorted (· ≤ ·) sc.videoReads)
    (har : List.Sorted (· ≤ ·) sc.audioReads)
    (hpr : List.Sorted (· ≤ ·) sc.progReads) :
    List.Sorted (· ≤ ·) ytdlpFixedTrace ∧
    List.Sorted (· ≤ ·) (muxAttemptTrace sc) ∧
    List.Sorted (· ≤ ·) (progressReaderTrace sc.progTotal sc.progReads) :=
  ⟨by norm_num [ytdlpFixedTrace, List.sorted_cons],
   muxAttemptTrace_sorted sc hvr har,
   progressReaderTrace_sorted _ _ hpr⟩

/-- Witness for the amended C2 at a concrete scenario. -/
theorem strategy_traces_monotone_witness :
    List.Sorted (· ≤ ·) cexScenario.videoReads ∧
    List.Sorted (· ≤ ·) (muxAttemptTrace cexScenario) :=
  ⟨by simp [cexScenario],
   (strategy_traces_monotone cexScenario (by simp [cexScenario]) (by simp [cexScenario])
     (by simp [cexScenario])).2.1⟩

/-- C7: the byte-level progress reader (i) only ever emits a value at least
1% above the previously reported one or at least 1.0, starting from an
initial reported value of 0, (ii) emits exactly 1.0 when the cumulative count
reaches the advertised total, and (iii) emits nothing when no positive total
size is known. -/
theorem progressReader_coalescing (total : Int) (reads : List Int) :
    List.Chain (fun a b => 1/100 ≤ b - a ∨ 1 ≤ b) 0 (progressReaderTrace total reads) ∧
    (0 < total → total ∈ reads → (1 : ℚ) ∈ progressReaderTrace total reads) ∧
    (total ≤ 0 → progressReaderTrace total reads = []) := by
  refine ⟨?_, ?_, ?_⟩
  · unfold progressReaderTrace
    split
    · exact progressEmitAux_chain _ _
    · exact List.Chain.nil
  · intro ht hmem
    unfold progressReaderTrace
    rw [if_pos ht]
    apply progressEmitAux_one_mem
    refine List.mem_map.mpr ⟨total, hmem, ?_⟩
    have hne : ((total : ℚ)) ≠ 0 := by
      exact_mod_cast (by omega : total ≠ 0)
    exact div_self hne
  · intro h
    unfold progressReaderTrace
    rw [if_neg (by omega)]

/-- Witness for C7 at a concrete transfer: total 4 bytes, cumulative reads
1, 2, 4 — the fraction 1.0 is emitted at completion. -/
theorem progressReader_coalescing_witness :
    (0 : Int) < 4 ∧ (4 : Int) ∈ ([1, 2, 4] : List Int) ∧
    (1 : ℚ) ∈ progressReaderTrace 4 [1, 2, 4] :=
  ⟨by norm_num, by decide,
   (progressReader_coalescing 4 [1, 2, 4]).2.1 (by norm_num) (by decide)⟩

/-- Counterexample to C5 as stated: when the stream opens and the destination
is created but the transfer then fails, `downloadToFile` returns the error
while the partially written destination file is still on disk — the fetch
itself deletes nothing (deletion is left to its caller). -/
theorem downloadToFile_partial_counterexample :
    (downloadToFileFS ∅ cexFetch cexDest).2 = false ∧
    cexDest ∈ (downloadToFileFS ∅ cexFetch cexDest).1 := by decide

/-- C5 (amended): the progressive-path fetch inside `DownloadForPreview`
deletes the partial destination before returning its error; `downloadToFile`
itself does not delete, but its only caller `downloadAndMux` removes the
fetch destination immediately after a failed fetch, so the partial file is
gone once the enclosing strategy returns. -/
theorem fetch_cleanup_at_call_sites (fs : Finset String) (sc : FetchScenario)
    (msc : MuxScenario) (d vp ap op : String) (hd : d ∉ fs) :
    ((previewFetchFS fs sc d).2 = false → d ∉ (previewFetchFS fs sc d).1) ∧
    ((downloadToFileFS fs msc.videoFetch vp).2 = false →
      vp ∉ (downloadAndMuxFS fs msc vp ap op).1) := by
  constructor
  · intro hf
    rcases sc with ⟨a, b, c⟩
    cases a <;> cases b <;> cases c <;>
      simp_all [previewFetchFS, Finset.mem_erase, Finset.mem_insert]
  · intro hf
    rcases h1 : downloadToFileFS fs msc.videoFetch vp with ⟨fs1, ok⟩
    rw [h1] at hf
    simp only at hf
    subst hf
    simp [downloadAndMuxFS, h1, Finset.mem_erase]

/-- Witness for the amended C5 at a concrete failing fetch. -/
theorem fetch_cleanup_at_call_sites_witness :
    cexDest ∉ (∅ : Finset String) ∧
    cexDest ∉ (previewFetchFS ∅ cexFetch cexDest).1 :=
  ⟨by decide,
   (fetch_cleanup_at_call_sites ∅ cexFetch cexMuxAudioFail cexDest cexDest cexDest cexDest
     (by decide)).1 (by decide)⟩

/-- C6: whenever `downloadAndMux` fails — video fetch, audio fetch, or the
encoder run — none of its temporary artifacts (video temp file, audio temp
file, partial output file) remain on disk, assuming none of those paths
pre-existed. -/
theorem downloadAndMux_cleans_temp_on_failure (fs : Finset String) (sc : MuxScenario)
    (vp ap op : String) (hv : vp ∉ fs) (ha : ap ∉ fs) (ho : op ∉ fs)
    (hfail : (downloadAndMuxFS fs sc vp ap op).2 = false) :
    vp ∉ (downloadAndMuxFS fs sc vp ap op).1 ∧
    ap ∉ (downloadAndMuxFS fs sc vp ap op).1 ∧
    op ∉ (downloadAndMuxFS fs sc vp ap op).1 := by
  rcases sc with ⟨⟨vs, vc, vcp⟩, ⟨bs, bc, bcp⟩, mo, mp⟩
  cases vs <;> cases vc <;> cases vcp <;> cases bs <;> cases bc <;> cases bcp <;>
    cases mo <;> cases mp <;>
    simp_all [downloadAndMuxFS, downloadToFileFS, Finset.mem_erase, Finset.mem_insert]

/-- Witness for C6: audio fetch fails mid-copy; afterwards neither temp file
nor output file exists. -/
theorem downloadAndMux_cleans_temp_on_failure_witness :
    (downloadAndMuxFS ∅ cexMuxAudioFail tmpVideoPath tmpAudioPath tmpOutPath).2 = false ∧
    tmpVideoPath ∉ (downloadAndMuxFS ∅ cexMuxAudioFail tmpVideoPath tmpAudioPath tmpOutPath).1 ∧
    tmpAudioPath ∉ (downloadAndMuxFS ∅ cexMuxAudioFail tmpVideoPath tmpAudioPath tmpOutPath).1 ∧
    tmpOutPath ∉ (downloadAndMuxFS ∅ cexMuxAudioFail tmpVideoPath tmpAudioPath tmpOutPath).1 :=
  ⟨by decide,
   downloadAndMux_cleans_temp_on_failure ∅ cexMuxAudioFail tmpVideoPath tmpAudioPath tmpOutPath
     (by decide) (by decide) (by decide) (by decide)⟩

/-- Counterexample to C4 as stated: an MP4/H.265 (`hev1`) video track is not
H.264, yet the mux step passes `-c:v copy` for it (its mime type contains
none of the `vp9`/`vp09`/`av01`/`webm` markers the code actually tests);
likewise an MP4/FLAC audio track is not AAC yet gets `-c:a copy`. -/
theorem mux_copy_not_h264_counterexample :
    isH264Codec hev1Mime = false ∧ videoCodecArgs hev1Mime = [aCv, aCopy] ∧
    isAacCodec flacMime = false ∧ audioCodecArgs flacMime = [aCa, aCopy] := by decide

/-- C4 (amended): in the split-mux strategy the video track is stream-copied
iff its mime type contains none of the markers `vp9`, `vp09`, `av01`, `webm`
(not: iff its codec is H.264), and the audio track is stream-copied iff its
mime type contains neither `opus` nor `webm` (not: iff its codec is AAC). -/
theorem mux_copy_iff_mime_markers (vm am : String) :
    (videoCodecArgs vm = [aCv, aCopy] ↔
      (strContains vm sVp9 = false ∧ strContains vm sVp09 = false ∧
        strContains vm sAv01 = false ∧ strContains vm sWebm = false)) ∧
    (audioCodecArgs am = [aCa, aCopy] ↔
      (strContains am sOpus = false ∧ strContains am sWebm = false)) := by
  have hv : videoCodecArgs vm = [aCv, aCopy] ↔ needsVideoTranscode vm = false := by
    unfold videoCodecArgs
    split_ifs with h
    · exact iff_of_false (by decide) (by simp [h])
    · exact iff_of_true rfl (by simpa using h)
  have ha : audioCodecArgs am = [aCa, aCopy] ↔ needsAudioTranscode am = false := by
    unfold audioCodecArgs
    split_ifs with h
    · exact iff_of_false (by decide) (by simp [h])
    · exact iff_of_true rfl (by simpa using h)
  rw [hv, ha]
  unfold needsVideoTranscode needsAudioTranscode
  simp [Bool.or_eq_false_iff, and_assoc]

/-- C8: each trim/export validation failure produces an error with zero
encoder launches — a missing input file and `end ≤ start` are rejected inside
`TrimVideoWithProgress` before the subprocess is built, and a non-absolute
output directory is rejected inside `ExportClip` before a processor is even
constructed. -/
theorem trim_validation_before_launch (fp : String) (env : TrimEnv) (opts : TrimOpts)
    (aenv : AppEnv) (eopts : ExportOpts) :
    (env.inputExists = false →
      (trimVideoWithProgress fp env opts).ok = false ∧
      (trimVideoWithProgress fp env opts).launches = 0) ∧
    (opts.endTime ≤ opts.startTime →
      (trimVideoWithProgress fp env opts).ok = false ∧
      (trimVideoWithProgress fp env opts).launches = 0) ∧
    (isAbsPath eopts.outputDir = false →
      (exportClip aenv eopts).1 = false ∧ (exportClip aenv eopts).2 = 0) := by
  refine ⟨?_, ?_, ?_⟩
  · intro h
    unfold trimVideoWithProgress
    split_ifs <;> simp_all
  · intro h
    unfold trimVideoWithProgress
    split_ifs <;> simp_all
  · intro h
    unfold exportClip
    dsimp only
    split_ifs <;> simp_all

/-- Witness for C8: a missing input, an inverted range and a relative output
directory each yield an error with zero encoder launches. -/
theorem trim_validation_before_launch_witness :
    noInputTrimEnv.inputExists = false ∧
    ((trimVideoWithProgress emptyString noInputTrimEnv badRangeTrimOpts).ok = false ∧
      (trimVideoWithProgress emptyString noInputTrimEnv badRangeTrimOpts).launches = 0) ∧
    badRangeTrimOpts.endTime ≤ badRangeTrimOpts.startTime ∧
    isAbsPath relDirExportOpts.outputDir = false ∧
    ((exportClip witnessAppEnv relDirExportOpts).1 = false ∧
      (exportClip witnessAppEnv relDirExportOpts).2 = 0) :=
  ⟨rfl,
   (trim_validation_before_launch emptyString noInputTrimEnv badRangeTrimOpts
     witnessAppEnv relDirExportOpts).1 rfl,
   by norm_num [badRangeTrimOpts],
   by decide,
   (trim_validation_before_launch emptyString noInputTrimEnv badRangeTrimOpts
     witnessAppEnv relDirExportOpts).2.2 (by decide)⟩

/-- Counterexample to C9 as stated: for a 5-second requested duration the
line `out_time_ms=-1000000` is parsed and forwarded as `-1/5`, which is not
in [0,1] — the code clamps the ratio only above 1.0, never below 0. -/
theorem trim_progress_negative_counterexample :
    trimProgressEmits 5 [negOutTimeLine] = [-(1/5)] ∧ (-(1/5) : ℚ) < 0 := by
  have hp : parseOutTime negOutTimeLine = some (-1000000) := by decide
  constructor
  · simp only [trimProgressEmits, List.filterMap_cons, List.filterMap_nil, hp]
    rw [if_pos (by norm_num : (0:ℚ) < 5)]
    unfold lineProgress
    rw [if_neg (by norm_num)]
    norm_num
  · norm_num

/-- C9 (amended): every value forwarded by the export progress parser equals
the parsed `out_time_ms` microseconds over the requested duration clamped
above at 1.0, hence is at most 1; it lies in [0,1] whenever the parsed
integer is non-negative (negative parses are forwarded unclamped below 0);
and whenever the encoder process exits successfully a final `onProgress(1.0)`
fires, even if the last parsed value was lower. -/
theorem trim_progress_clamped_above (d : ℚ) (lines : List String) (fp : String)
    (env : TrimEnv) (opts : TrimOpts) :
    (∀ v ∈ trimProgressEmits d lines, v ≤ 1 ∧
      ∃ l ∈ lines, ∃ ms : Int, parseOutTime l = some ms ∧ v = lineProgress d ms ∧
        (0 ≤ ms → 0 ≤ v)) ∧
    (fp ≠ emptyString → env.inputExists = true → opts.startTime < opts.endTime →
      env.mkdirOk = true → env.pipeOk = true → env.startOk = true → env.waitOk = true →
      (trimVideoWithProgress fp env opts).ok = true ∧
      (trimVideoWithProgress fp env opts).trace.getLast? = some 1) := by
  constructor
  · intro v hv
    rcases List.mem_filterMap.mp hv with ⟨l, hl, hfl⟩
    rcases hpl : parseOutTime l with _ | ms
    · rw [hpl] at hfl
      have hfl0 : (none : Option ℚ) = some v := hfl
      simp at hfl0
    · rw [hpl] at hfl
      have hfl1 : (if 0 < d then some (lineProgress d ms) else none) = some v := hfl
      by_cases hd : 0 < d
      · rw [if_pos hd] at hfl1
        have hveq : v = lineProgress d ms := (Option.some.inj hfl1).symm
        subst hveq
        refine ⟨?_, l, hl, ms, hpl, rfl, ?_⟩
        · unfold lineProgress
          split_ifs with h1
          · exact le_rfl
          · linarith [not_lt.mp h1]
        · intro hms
          unfold lineProgress
          split_ifs with h1
          · norm_num
          · have hms' : (0 : ℚ) ≤ (ms : ℚ) := by exact_mod_cast hms
            positivity
      · rw [if_neg hd] at hfl1
        simp at hfl1
  · intro h1 h2 h3 h4 h5 h6 h7
    unfold trimVideoWithProgress
    rw [if_neg h1, if_neg (by simp [h2]), if_neg (by exact not_le.mpr h3),
      if_neg (by simp [h4]), if_neg (by simp [h5]), if_neg (by simp [h6])]
    dsimp only
    rw [if_neg (by simp [h7])]
    refine ⟨rfl, ?_⟩
    show ((trimProgressEmits (opts.endTime - opts.startTime) env.outLines) ++
      [(1 : ℚ)]).getLast? = some 1
    exact List.getLast?_concat _

/-- Witness for the amended C9: on a successful encoder run the last value
delivered to the callback is exactly 1.0. -/
theorem trim_progress_clamped_above_witness :
    ffmpegBinName ≠ emptyString ∧ goodTrimOpts.startTime < goodTrimOpts.endTime ∧
    ((trimVideoWithProgress ffmpegBinName goodTrimEnv goodTrimOpts).ok = true ∧
      (trimVideoWithProgress ffmpegBinName goodTrimEnv goodTrimOpts).trace.getLast? =
        some 1) :=
  ⟨by decide, by norm_num [goodTrimOpts],
   (trim_progress_clamped_above 5 [] ffmpegBinName goodTrimEnv goodTrimOpts).2
     (by decide) rfl (by norm_num [goodTrimOpts]) rfl rfl rfl rfl⟩

theorem replaceAllChar_mem (l : List Char) (c repl : Char) (x : Char)
    (hx : x ∈ replaceAllChar l c repl) : x = repl ∨ (x ∈ l ∧ x ≠ c) := by
  rcases List.mem_map.mp hx with ⟨y, hy, hyx⟩
  by_cases hyc : y = c
  · left; rw [← hyx, if_pos hyc]
  · right
    rw [← hyx, if_neg hyc]
    exact ⟨hy, hyc⟩

theorem foldl_replace_mem (repl : Char) :
    ∀ (cs : List Char) (l : List Char) (x : Char),
      x ∈ cs.foldl (fun acc c => replaceAllChar acc c repl) l →
      x = repl ∨ (x ∈ l ∧ x ∉ cs) := by
  intro cs
  induction cs with
  | nil => intro l x hx; exact Or.inr ⟨hx, by simp⟩
  | cons c rest ih =>
    intro l x hx
    rw [List.foldl_cons] at hx
    rcases ih (replaceAllChar l c repl) x hx with h | ⟨hmem, hnot⟩
    · exact Or.inl h
    · rcases replaceAllChar_mem l c repl x hmem with h | ⟨hl, hne⟩
      · exact Or.inl h
      · refine Or.inr ⟨hl, ?_⟩
        intro hmem2
        rcases List.mem_cons.mp hmem2 with h2 | h2
        · exact hne h2
        · exact hnot h2

theorem dropEnds_sublist (p : Char → Bool) (l : List Char) :
    (dropEnds p l).Sublist l := by
  unfold dropEnds
  have h1 : (l.dropWhile p).Sublist l := List.dropWhile_sublist _
  have h2 : ((l.dropWhile p).reverse.dropWhile p).Sublist (l.dropWhile p).reverse :=
    List.dropWhile_sublist _
  have h3 := h2.reverse
  rw [List.reverse_reverse] at h3
  exact h3.trans h1

theorem utf8Size_pos (c : Char) : 1 ≤ utf8Size c := by
  unfold utf8Size; split_ifs <;> norm_num

theorem byteLen_cons (c : Char) (l : List Char) :
    byteLen (c :: l) = utf8Size c + byteLen l := by
  simp [byteLen]

theorem byteLen_sublist {l₁ l₂ : List Char} (h : l₁.Sublist l₂) :
    byteLen l₁ ≤ byteLen l₂ := by
  induction h with
  | slnil => exact le_rfl
  | cons a h ih => rw [byteLen_cons]; omega
  | cons₂ a h ih => rw [byteLen_cons, byteLen_cons]; omega

theorem byteLen_replaceAllChar (l : List Char) (c : Char) :
    byteLen (replaceAllChar l c '_') ≤ byteLen l := by
  induction l with
  | nil => simp [replaceAllChar, byteLen]
  | cons x rest ih =>
    have hx : utf8Size (if x = c then '_' else x) ≤ utf8Size x := by
      split_ifs with h
      · have h1 := utf8Size_pos x
        have h2 : utf8Size '_' = 1 := by decide
        omega
      · exact le_rfl
    simp only [replaceAllChar, List.map_cons] at ih ⊢
    rw [byteLen_cons, byteLen_cons]
    omega

theorem byteLen_sanitizeReplaced (name : List Char) :
    byteLen (sanitizeReplaced name) ≤ byteLen name := by
  unfold sanitizeReplaced
  generalize invalidFilenameChars = cs
  induction cs generalizing name with
  | nil => exact le_rfl
  | cons c rest ih =>
    rw [List.foldl_cons]
    exact le_trans (ih (replaceAllChar name c '_')) (byteLen_replaceAllChar name c)

theorem truncBytes_subset :
    ∀ (n : Nat) (l : List Char), ∀ x ∈ truncBytes n l, x ∈ l := by
  intro n l
  induction l generalizing n with
  | nil => intro x hx; simp [truncBytes] at hx
  | cons c rest ih =>
    intro x hx
    unfold truncBytes at hx
    split at hx
    · rcases List.mem_cons.mp hx with rfl | hx'
      · exact List.mem_cons_self _ _
      · exact List.mem_cons_of_mem _ (ih _ x hx')
    · simp at hx

theorem truncBytes_byteLen :
    ∀ (n : Nat) (l : List Char), byteLen (truncBytes n l) ≤ n := by
  intro n l
  induction l generalizing n with
  | nil => simp [truncBytes, byteLen]
  | cons c rest ih =>
    unfold truncBytes
    split
    · rw [byteLen_cons]
      have := ih (n - utf8Size c)
      omega
    · simp [byteLen]

/-- C10: `sanitizeFilename` returns a name containing none of the characters
`/ \ : * ? " < > |`, of byte length at most 200, and never longer (in bytes)
than its input. -/
theorem sanitizeFilename_safe (name : List Char) :
    (∀ c ∈ sanitizeFilename name, c ∉ invalidFilenameChars) ∧
    byteLen (sanitizeFilename name) ≤ 200 ∧
    byteLen (sanitizeFilename name) ≤ byteLen name := by
  have hclean : ∀ x ∈ sanitizeReplaced name, x ∉ invalidFilenameChars := by
    intro x hx
    rcases foldl_replace_mem '_' invalidFilenameChars name x hx with h | ⟨_, hnot⟩
    · subst h; decide
    · exact hnot
  have hsub : (dropEnds (fun c => c = '.') (dropEnds isGoSpace (sanitizeReplaced name))).Sublist
      (sanitizeReplaced name) :=
    (dropEnds_sublist _ _).trans (dropEnds_sublist _ _)
  have hlen3 : byteLen (dropEnds (fun c => c = '.') (dropEnds isGoSpace (sanitizeReplaced name))) ≤
      byteLen name :=
    le_trans (byteLen_sublist hsub) (byteLen_sanitizeReplaced name)
  unfold sanitizeFilename
  split_ifs with h
  · refine ⟨?_, truncBytes_byteLen _ _, ?_⟩
    · intro c hc
      exact hclean c (hsub.mem (truncBytes_subset _ _ c hc))
    · have := truncBytes_byteLen 200
        (dropEnds (fun c => c = '.') (dropEnds isGoSpace (sanitizeReplaced name)))
      omega
  · refine ⟨?_, by omega, hlen3⟩
    intro c hc
    exact hclean c (hsub.mem hc)
